import Mathlib

/-!
# Lib(X)SVF host adapters

A shallow embedding of the two host adapters of the repository,
`xsvftool-arduino.cpp` (microcontroller build, bounded allocator, serial byte
source) and `xsvftool.c` (desktop build, tracking allocator, capture buffer),
followed by the properties of the specification that are proved about them.

Conventions of the embedding.
* C `int` and `long` values are `Int`; `unsigned long` values and array indices
  are `Nat`, reduced modulo `2 ^ 32` where the source subtracts them.
* An expression or function whose source has no defined value on some input (a
  quotient with divisor zero, an index outside an array) is `none` there.
* What a function writes to the serial port or to `stderr` is returned as a list
  of output items, in program order.
-/

set_option autoImplicit false

namespace Libxsvf

/-! ## `xsvftool-arduino.cpp` -/

namespace Arduino

/-- Pointer values that `h_realloc` can hand out: the null pointer `(void*)0` and
the nine static buffers declared at the top of the function. -/
inductive Ptr
  | null
  | buf_svf_commandbuf
  | buf_svf_sdr_tdi_data
  | buf_svf_sdr_tdi_mask
  | buf_svf_sdr_tdo_data
  | buf_svf_sdr_tdo_mask
  | buf_svf_sir_tdi_data
  | buf_svf_sir_tdi_mask
  | buf_svf_sir_tdo_data
  | buf_svf_sir_tdo_mask
  deriving DecidableEq

/-- Value of `sizeof(buf)` for each static buffer, from the array declarations
(`[200]`, `[16]` four times, `[1]` four times); the null pointer has no storage. -/
def Ptr.sizeof : Ptr → Int
  | .null => 0
  | .buf_svf_commandbuf => 200
  | .buf_svf_sdr_tdi_data => 16
  | .buf_svf_sdr_tdi_mask => 16
  | .buf_svf_sdr_tdo_data => 16
  | .buf_svf_sdr_tdo_mask => 16
  | .buf_svf_sir_tdi_data => 1
  | .buf_svf_sir_tdi_mask => 1
  | .buf_svf_sir_tdo_data => 1
  | .buf_svf_sir_tdo_mask => 1

/-- The table `static unsigned char *buflist[15]`. -/
def buflist : List Ptr :=
  [ .null, .null, .null, .null,
    .null, .buf_svf_commandbuf, .buf_svf_sdr_tdi_data, .buf_svf_sdr_tdi_mask,
    .buf_svf_sdr_tdo_data, .buf_svf_sdr_tdo_mask, .null, .buf_svf_sir_tdi_data,
    .buf_svf_sir_tdi_mask, .buf_svf_sir_tdo_data, .buf_svf_sir_tdo_mask ]

/-- The table `static int sizelist[15]`. -/
def sizelist : List Int :=
  [ 0, 0, 0, 0, 0, Ptr.sizeof .buf_svf_commandbuf, Ptr.sizeof .buf_svf_sdr_tdi_data,
    Ptr.sizeof .buf_svf_sdr_tdi_mask, Ptr.sizeof .buf_svf_sdr_tdo_data,
    Ptr.sizeof .buf_svf_sdr_tdo_mask, 0, Ptr.sizeof .buf_svf_sir_tdi_data,
    Ptr.sizeof .buf_svf_sir_tdi_mask, Ptr.sizeof .buf_svf_sir_tdo_data,
    Ptr.sizeof .buf_svf_sir_tdo_mask ]

/-- One item written to the serial port by `Serial.print` / `Serial.println`. -/
inductive SerialOut
  | str (s : String)
  | num (n : Int)
  | newline
  deriving DecidableEq

/-- The four `Serial.print` calls of the refusal report in `h_realloc`
(the last one is a `println`). -/
def realloc_report (size : Int) (which : Nat) : List SerialOut :=
  [ .str "Error attempting to allocate ", .num size,
    .str " bytes for libxsvf realloc entry ", .num which, .newline ]

/-- The bounded allocator `h_realloc(h, ptr, size, which)`: the serial output and the
returned pointer. `which` is the value of the `enum libxsvf_mem` argument. Both
tests are guarded by `which < 15`, so the tables are only read inside their bounds. -/
def h_realloc (_ptr : Ptr) (size : Int) (which : Nat) : List SerialOut × Ptr :=
  let out : List SerialOut :=
    if which < 15 ∧ size > sizelist.getD which 0 then realloc_report size which else []
  (out, if which < 15 ∧ size ≤ sizelist.getD which 0 then buflist.getD which .null else .null)

/-- The adapter state `struct arduino_xsvf_user_data`. -/
structure arduino_xsvf_user_data where
  frequency : Nat
  tms_pin : Int
  tdi_pin : Int
  tdo_pin : Int
  tck_pin : Int
  trst_pin : Int
  deriving DecidableEq

/-- The user data that `arduino_play_svf` builds before it starts the interpreter:
`memset` to zero, `frequency = 100000`, then the five pin numbers. -/
def arduino_play_svf_init (tms_pin tdi_pin tdo_pin tck_pin trst_pin : Int) :
    arduino_xsvf_user_data :=
  { frequency := 100000, tms_pin := tms_pin, tdi_pin := tdi_pin, tdo_pin := tdo_pin,
    tck_pin := tck_pin, trst_pin := trst_pin }

/-- The callback `h_set_frequency(h, v)`: stores `v` and returns 0. -/
def h_set_frequency (u : arduino_xsvf_user_data) (v : Nat) : arduino_xsvf_user_data × Int :=
  ({ u with frequency := v }, 0)

/-- The expression `1000000L / u->frequency` (unsigned long division) that the source
writes as the argument of `delayMicroseconds` in `h_pulse_tck` and `h_udelay`; it has
no value for a zero divisor. Line 34 defines `delayMicroseconds(us)` as `((void)(us))`,
so the callbacks discard the quotient and wait nowhere. -/
def half_cycle_delay (frequency : Nat) : Option Nat :=
  if frequency = 0 then none else some (1000000 / frequency)

/-- What a callback does to the pins: `digitalWrite(pin, level)`. -/
inductive PinOut
  | write (pin : Int) (high : Bool)
  deriving DecidableEq

/-- The callback `h_pulse_tck(h, tms, tdi, tdo, rmask, sync)`. The argument `tdo_high`
is the outcome of the test `digitalRead(u->tdo_pin) == HIGH`. The result is the
sequence of pin writes and the returned `int`. The two `delayMicroseconds` lines
expand to discarded expressions (line 34), so the call performs no delay and the
frequency plays no part in what it does or returns. -/
def h_pulse_tck (u : arduino_xsvf_user_data) (tdo_high : Bool)
    (tms tdi tdo _rmask _sync : Int) : List PinOut × Int :=
  let line_tdo : Int := if tdo_high then 1 else 0
  ([ .write u.tms_pin (decide (tms ≠ 0)), .write u.tdi_pin (decide (tdi ≠ 0)),
     .write u.tck_pin false, .write u.tck_pin true ],
    if tdo < 0 ∨ line_tdo = tdo then line_tdo else -1)

/-- What one turn of the waiting loop of `h_getbyte` observes: the value of
`Serial.available()` in the loop test, the truth value of `Serial` (port connected)
and the value of `millis()`. -/
structure SerialPoll where
  available : Int
  connected : Bool
  millis : Nat
  deriving DecidableEq

/-- The test `millis() - now > 1000` on 32-bit `unsigned long` operands. -/
def timed_out (now millis : Nat) : Bool :=
  decide (((millis : Int) - (now : Int)) % 4294967296 > 1000)

/-- How the loop `while (!Serial.available()) ...` of `h_getbyte` ends. -/
inductive WaitResult
  | byte_available
  | disconnected
  | timeout
  deriving DecidableEq

/-- The waiting loop of `h_getbyte` over the successive observations `polls`; `none`
when the observations run out while the loop is still waiting. -/
def wait_loop (now : Nat) : List SerialPoll → Option WaitResult
  | [] => none
  | p :: ps =>
    if p.available ≠ 0 then some .byte_available
    else if !p.connected then some .disconnected
    else if timed_out now p.millis then some .timeout
    else wait_loop now ps

/-- The callback `h_getbyte(h)`. `now` is the first `millis()` reading, `available0`
the value of `Serial.available()` in the first `if`, `polls` what the waiting loop
observes and `c` the value `Serial.read()` yields. Returns the serial output and the
returned `int`. -/
def h_getbyte (now : Nat) (available0 : Int) (polls : List SerialPoll) (c : Int) :
    Option (List SerialOut × Int) :=
  let ask : List SerialOut := if available0 = 0 then [.str "*#", .newline] else []
  match wait_loop now polls with
  | none => none
  | some .disconnected => some (ask, -1)
  | some .timeout => some (ask ++ [.str "getbyte timeout, returning EOF", .newline], -1)
  | some .byte_available => some (ask, if c = 4 then -1 else c)

end Arduino

/-! ## `xsvftool.c` -/

namespace Desktop

/-- One line written to `stderr` by a callback. -/
inductive Log
  | pulse (tms tdi tdo_arg tdo_line rmask : Int)
  | realloc (which : Nat) (size : Int)
  deriving DecidableEq

/-- The adapter state `struct udata_s` without the input file handle `f`. -/
structure udata_s where
  verbose : Int
  retval_i : Nat
  retval : List Int
  deriving DecidableEq

/-- The zero-initialised static `u`, with the verbosity the command line selected. -/
def udata_init (verbose : Int) : udata_s :=
  { verbose := verbose, retval_i := 0, retval := List.replicate 256 0 }

/-- A call of one of the low-level I/O functions `io_tms`, `io_tdi`, `io_tck`, `io_tdo`. -/
inductive IoCall
  | io_tms (val : Int)
  | io_tdi (val : Int)
  | io_tck (val : Int)
  | io_tdo
  deriving DecidableEq

/-- What one call of `h_pulse_tck` yields: the new state, the low-level I/O calls it
made, the `stderr` output and the returned `int`. -/
structure PulseResult where
  u : udata_s
  io : List IoCall
  log : List Log
  ret : Int
  deriving DecidableEq

/-- The callback `h_pulse_tck(h, tms, tdi, tdo, rmask)`. `io_tdo` is the value the
backend function `io_tdo()` returns if it is called during this pulse. -/
def h_pulse_tck (u : udata_s) (io_tdo : Int) (tms tdi tdo rmask : Int) : PulseResult :=
  let line_tdo : Int := if tdo ≥ 0 ∨ rmask ≠ 0 then io_tdo else -1
  let u1 : udata_s :=
    if rmask ≠ 0 ∧ u.retval_i < 256 then
      { u with retval := u.retval.set u.retval_i line_tdo, retval_i := u.retval_i + 1 }
    else u
  { u := u1
    io := [IoCall.io_tms tms] ++ (if tdi ≥ 0 then [IoCall.io_tdi tdi] else []) ++
      [IoCall.io_tck 0, IoCall.io_tck 1] ++
      (if tdo ≥ 0 ∨ rmask ≠ 0 then [IoCall.io_tdo] else [])
    log := if u.verbose ≥ 3 then [.pulse tms tdi tdo line_tdo rmask] else []
    ret := if tdo ≥ 0 ∧ line_tdo ≥ 0 ∧ tdo ≠ line_tdo then -1 else 0 }

/-- The Captured-Bit Sequence `retval[0 .. retval_i)`, as `main` prints it. -/
def captured (u : udata_s) : List Int :=
  u.retval.take u.retval_i

/-- The shape of the capture buffer in every reachable state: 256 slots and an index
within them. -/
def capture_inv (u : udata_s) : Prop :=
  u.retval.length = 256 ∧ u.retval_i ≤ 256

/-- One call of `h_pulse_tck`: its four arguments and the backend level of that
pulse. -/
structure Pulse where
  tms : Int
  tdi : Int
  tdo : Int
  rmask : Int
  io_tdo : Int
  deriving DecidableEq

/-- The state after a sequence of pulses. -/
def run_pulses (u : udata_s) (ps : List Pulse) : udata_s :=
  ps.foldl (fun st p => (h_pulse_tck st p.io_tdo p.tms p.tdi p.tdo p.rmask).u) u

/-- The TDO values sampled on the pulses whose `rmask` is non-zero, in pulse order. -/
def capture_requests (ps : List Pulse) : List Int :=
  (ps.filter (fun p => decide (p.rmask ≠ 0))).map (fun p => p.io_tdo)

/-- The static table `realloc_maxsize[LIBXSVF_MEM_NUM]`, zero-initialised. The
constant `LIBXSVF_MEM_NUM` comes from `libxsvf.h` and is a parameter here. -/
def realloc_maxsize_init (NUM : Nat) : List Int :=
  List.replicate NUM 0

/-- The tracking allocator `h_realloc(h, ptr, size, which)`: the new
`realloc_maxsize` table and the `stderr` output. The pointer it returns is the result
of the C library call `realloc(ptr, size)`. `none` when `which` is not an index of the
table. -/
def h_realloc (verbose : Int) (realloc_maxsize : List Int) (size : Int) (which : Nat) :
    Option (List Int × List Log) :=
  if which < realloc_maxsize.length then
    let tbl : List Int :=
      if size > realloc_maxsize.getD which 0 then realloc_maxsize.set which size
      else realloc_maxsize
    some (tbl, if verbose ≥ 2 then [.realloc which size] else [])
  else none

/-- One call of `h_realloc`. -/
structure Request where
  which : Nat
  size : Int
  deriving DecidableEq

/-- The `realloc_maxsize` table after a session of `h_realloc` calls. -/
def run_session (verbose : Int) : List Int → List Request → Option (List Int)
  | tbl, [] => some tbl
  | tbl, r :: rs =>
    match h_realloc verbose tbl r.size r.which with
    | none => none
    | some (tbl1, _) => run_session verbose tbl1 rs

/-- Pointer values of the allocator that `main` prints: the null pointer and the
static buffer declared for category `i`. -/
inductive GenPtr
  | null
  | buf (i : Nat)
  deriving DecidableEq

/-- The initialiser of `buflist` that `main` prints: for each index the buffer of
that category when `realloc_maxsize[i] > 0`, else `(void*)0`. -/
def emitted_buflist (realloc_maxsize : List Int) : List GenPtr :=
  realloc_maxsize.enum.map (fun im => if im.2 > 0 then GenPtr.buf im.1 else GenPtr.null)

/-- The initialiser of `sizelist` that `main` prints: `sizeof` of the buffer, which
is declared with `realloc_maxsize[i]` bytes, when `realloc_maxsize[i] > 0`, else 0. -/
def emitted_sizelist (realloc_maxsize : List Int) : List Int :=
  realloc_maxsize.map (fun m => if m > 0 then m else 0)

/-- The return statement that `main` prints:
`which < NUM && size <= sizelist[which] ? buflist[which] : (void*)0`. -/
def emitted_realloc (NUM : Nat) (realloc_maxsize : List Int) (size : Int) (which : Nat) :
    GenPtr :=
  if which < NUM ∧ size ≤ (emitted_sizelist realloc_maxsize).getD which 0 then
    (emitted_buflist realloc_maxsize).getD which .null
  else .null

/-- The sizes requested for category `c` in a session, in call order. -/
def requested (rs : List Request) (c : Nat) : List Int :=
  (rs.filter (fun r => decide (r.which = c))).map (fun r => r.size)

end Desktop

/-! ## Properties of `xsvftool-arduino.cpp` -/

namespace Arduino

/-- The capacity table has 15 entries. -/
theorem sizelist_length : sizelist.length = 15 := rfl

/-- The buffer table has 15 entries. -/
theorem buflist_length : buflist.length = 15 := rfl

/-- Two different categories with non-zero capacity have different buffers (checked
over all pairs of table indices). -/
theorem buflist_injective_fin : ∀ w w2 : Fin 15, w2.val ≠ w.val →
    sizelist.getD w.val 0 ≠ 0 → sizelist.getD w2.val 0 ≠ 0 →
    buflist.getD w.val .null ≠ buflist.getD w2.val .null := by
  decide

/-- Two different categories with non-zero capacity have different buffers. -/
theorem buflist_injective (w : Nat) (hw : w < 15) (w2 : Nat) (hw2 : w2 < 15) (hne : w2 ≠ w)
    (h : sizelist.getD w 0 ≠ 0) (h2 : sizelist.getD w2 0 ≠ 0) :
    buflist.getD w .null ≠ buflist.getD w2 .null :=
  buflist_injective_fin ⟨w, hw⟩ ⟨w2, hw2⟩ hne h h2

/-- C1. Bounded allocator: for a category `which` in `0..14`, a request with
`size <= sizelist[which]` returns `buflist[which]`, whatever the size and the previous
buffer, so two granted requests for one category return the same buffer; two distinct
categories with non-zero capacity are bound to different buffers; and a request with
`size > sizelist[which]` returns the null pointer. -/
theorem h_realloc_bounded (which : Nat) (hw : which < 15) (size : Int) (ptr : Ptr) :
    (size ≤ sizelist.getD which 0 →
        (h_realloc ptr size which).2 = buflist.getD which .null) ∧
    (∀ (size2 : Int) (ptr2 : Ptr), size ≤ sizelist.getD which 0 →
        size2 ≤ sizelist.getD which 0 →
        (h_realloc ptr size which).2 = (h_realloc ptr2 size2 which).2) ∧
    (∀ which2 : Nat, which2 < 15 → which2 ≠ which → sizelist.getD which 0 ≠ 0 →
        sizelist.getD which2 0 ≠ 0 → buflist.getD which .null ≠ buflist.getD which2 .null) ∧
    (size > sizelist.getD which 0 → (h_realloc ptr size which).2 = .null) := by
  refine ⟨?_, ?_, ?_, ?_⟩
  · intro h
    simp only [h_realloc, hw, h, and_self, if_true]
  · intro size2 ptr2 h h2
    simp only [h_realloc, hw, h, h2, and_self, if_true]
  · intro which2 hw2 hne
    exact buflist_injective which hw which2 hw2 hne
  · intro h
    have h2 : ¬ size ≤ sizelist.getD which 0 := not_le.mpr h
    simp only [h_realloc, h2, and_false, if_false]

/-- Category 5 (the command buffer) grants a request of its full capacity, 200 bytes. -/
theorem h_realloc_bounded_witness :
    5 < 15 ∧ (h_realloc .null 200 5).2 = buflist.getD 5 .null :=
  ⟨by decide, (h_realloc_bounded 5 (by decide) 200 .null).1 (by decide)⟩

/-- C2. TAP pulse outcome: in every adapter state, for every `tms`, `tdi`, `sync`,
`rmask` and every sampled TDO level `s` in `{0, 1}`, the call returns `s` when `tdo < 0`
or `tdo = s`, and `-1` when `tdo` is 0 or 1 and differs from `s`; `-1` is not a sampled
level; and the returned value is the same for all values of `tms`, `tdi`, `rmask` and
`sync`. -/
theorem h_pulse_tck_outcome (u : arduino_xsvf_user_data)
    (s : Int) (hs : s = 0 ∨ s = 1) (tms tdi tdo rmask sync : Int) :
    ((tdo < 0 ∨ tdo = s) →
        (h_pulse_tck u (decide (s = 1)) tms tdi tdo rmask sync).2 = s) ∧
    ((tdo = 0 ∨ tdo = 1) → tdo ≠ s →
        (h_pulse_tck u (decide (s = 1)) tms tdi tdo rmask sync).2 = -1) ∧
    (-1 : Int) ≠ s ∧
    (∀ tms2 tdi2 rmask2 sync2 : Int,
        (h_pulse_tck u (decide (s = 1)) tms2 tdi2 tdo rmask2 sync2).2 =
          (h_pulse_tck u (decide (s = 1)) tms tdi tdo rmask sync).2) := by
  have hline : (if decide (s = 1) = true then (1 : Int) else 0) = s := by
    rcases hs with h | h <;> simp [h]
  refine ⟨?_, ?_, ?_, ?_⟩
  · intro h
    have h2 : tdo < 0 ∨ s = tdo := h.imp id Eq.symm
    simp only [h_pulse_tck, hline, h2, if_true]
  · intro h01 hdiff
    have h2 : ¬ (tdo < 0 ∨ s = tdo) := by
      rintro (h | h)
      · rcases h01 with h0 | h1 <;> omega
      · exact hdiff h.symm
    simp only [h_pulse_tck, hline, h2, if_false]
  · rcases hs with h | h <;> omega
  · intro tms2 tdi2 rmask2 sync2
    rfl

/-- After `h_set_frequency(h, 0)` on the initial state, expecting 0 while the line
reads 1 yields the mismatch value. -/
theorem h_pulse_tck_outcome_witness :
    ((1 : Int) = 0 ∨ (1 : Int) = 1) ∧
      (h_pulse_tck (h_set_frequency (arduino_play_svf_init 2 3 4 5 6) 0).1
        (decide ((1 : Int) = 1)) 1 0 0 0 1).2 = -1 :=
  ⟨by decide,
    (h_pulse_tck_outcome (h_set_frequency (arduino_play_svf_init 2 3 4 5 6) 0).1 1
      (by decide) 1 0 0 0 1).2.1 (by decide) (by decide)⟩

/-- C6. A request for category 15, outside the 15-entry table, is refused (the null
pointer is returned) and nothing is written to the serial port, whereas the refused
oversize request of 17 bytes for category 6 is reported. -/
theorem h_realloc_silent_refusal :
    h_realloc .null 1 15 = ([], .null) ∧
      h_realloc .null 17 6 = (realloc_report 17 6, .null) := by
  decide

/-- C8, as stated, fails: for the zero-capacity category 0 a request of size 0 and the
refused oversize request of size 1 both return the null pointer. -/
theorem h_realloc_zero_capacity_null :
    (h_realloc .null 0 0).2 = .null ∧ (h_realloc .null 1 0).2 = .null ∧
      (h_realloc .null 0 0).2 = (h_realloc .null 1 0).2 := by
  decide

/-- C8, amended. The categories of the table with capacity 0 are exactly 0-4 and 10; for
each of them a request of size 0 passes the capacity check, writes no report and
returns `buflist[which]`, which is the null pointer, while every request of positive
size returns the null pointer together with the refusal report: the two differ in the
report only. -/
theorem h_realloc_zero_capacity (which : Nat) (hw : which < 15)
    (hz : sizelist.getD which 0 = 0) (ptr : Ptr) :
    (which ≤ 4 ∨ which = 10) ∧
    h_realloc ptr 0 which = ([], buflist.getD which .null) ∧
    buflist.getD which .null = .null ∧
    (∀ size : Int, 0 < size → h_realloc ptr size which = (realloc_report size which, .null)) := by
  have hcat : which ≤ 4 ∨ which = 10 := by
    interval_cases which <;> first | omega | (exact absurd hz (by decide))
  have hbuf : buflist.getD which .null = .null := by
    rcases hcat with h | h
    · interval_cases which <;> rfl
    · subst h; rfl
  refine ⟨hcat, ?_, hbuf, ?_⟩
  · simp only [h_realloc, hw, hz, gt_iff_lt, lt_self_iff_false, and_false, if_false,
      le_refl, and_self, if_true]
  · intro size hpos
    have h2 : ¬ size ≤ 0 := not_le.mpr hpos
    simp only [h_realloc, hw, hz, gt_iff_lt, hpos, and_self, if_true, h2, and_false,
      if_false]

/-- Category 10 has capacity 0 and grants a request of size 0 without a report. -/
theorem h_realloc_zero_capacity_witness :
    10 < 15 ∧ sizelist.getD 10 0 = 0 ∧
      h_realloc .buf_svf_commandbuf 0 10 = ([], buflist.getD 10 .null) :=
  ⟨by decide, by decide,
    (h_realloc_zero_capacity 10 (by decide) (by decide) .buf_svf_commandbuf).2.1⟩

/-- While every observation shows no byte, a connected port and no timeout, the
waiting loop goes on to the next observation. -/
theorem wait_loop_idle_prefix (now : Nat) (pre rest : List SerialPoll)
    (hpre : ∀ q ∈ pre, q.available = 0 ∧ q.connected = true ∧ timed_out now q.millis = false) :
    wait_loop now (pre ++ rest) = wait_loop now rest := by
  induction pre with
  | nil => rfl
  | cons q qs ih =>
    obtain ⟨ha, hc, ht⟩ := hpre q (List.mem_cons_self q qs)
    have hrest := ih (fun r hr => hpre r (List.mem_cons_of_mem q hr))
    simp only [List.cons_append, wait_loop, ha, ne_eq, not_true_eq_false, if_false, hc,
      Bool.not_true, Bool.false_eq_true, ht]
    exact hrest

/-- The value returned by `h_getbyte` is never the sentinel 4. -/
theorem h_getbyte_ne_sentinel (now : Nat) (available0 : Int) (polls : List SerialPoll)
    (c : Int) : (h_getbyte now available0 polls c).map Prod.snd ≠ some 4 := by
  unfold h_getbyte
  cases wait_loop now polls with
  | none => simp
  | some r =>
    cases r with
    | byte_available =>
      by_cases hc : c = 4
      · simp [hc]
      · simp [hc]
    | disconnected => simp
    | timeout => simp

/-- The unsigned 32-bit test `millis() - now > 1000` holds exactly when more than
1000 ms have elapsed since `now`, also when the millisecond counter wraps around. -/
theorem timed_out_iff_elapsed (now elapsed : Nat) (he : elapsed < 4294967296) :
    timed_out now ((now + elapsed) % 4294967296) = decide (1000 < elapsed) := by
  have h : (((((now + elapsed) % 4294967296 : Nat) : Int) - (now : Int)) % 4294967296)
      = (elapsed : Int) := by
    omega
  simp only [timed_out, h, gt_iff_lt, Nat.ofNat_pos, Nat.cast_ofNat, decide_eq_decide]
  omega

/-- C9. Live byte source. Let the waiting loop see idle observations `pre` (no byte,
port connected, no timeout) and then the observation `p`. If `p` shows a byte and the
byte read is the sentinel 4, the call returns -1; if `p` shows no byte and the port is
disconnected or more than 1000 ms have elapsed since entry, the call returns -1;
if `p` shows a byte other than 4, the call returns that byte. For every sequence of
observations the call never returns 4. -/
theorem h_getbyte_result (now : Nat) (available0 : Int) (pre : List SerialPoll)
    (p : SerialPoll) (post : List SerialPoll) (c : Int)
    (hpre : ∀ q ∈ pre, q.available = 0 ∧ q.connected = true ∧ timed_out now q.millis = false) :
    (p.available ≠ 0 → c = 4 →
        (h_getbyte now available0 (pre ++ p :: post) c).map Prod.snd = some (-1)) ∧
    (p.available = 0 → (p.connected = false ∨ timed_out now p.millis = true) →
        (h_getbyte now available0 (pre ++ p :: post) c).map Prod.snd = some (-1)) ∧
    (p.available ≠ 0 → c ≠ 4 →
        (h_getbyte now available0 (pre ++ p :: post) c).map Prod.snd = some c) ∧
    (∀ (elapsed : Nat), elapsed < 4294967296 →
        p.millis = (now + elapsed) % 4294967296 →
        (timed_out now p.millis = true ↔ 1000 < elapsed)) ∧
    (∀ polls : List SerialPoll, (h_getbyte now available0 polls c).map Prod.snd ≠ some 4) := by
  have hloop := wait_loop_idle_prefix now pre (p :: post) hpre
  refine ⟨?_, ?_, ?_, ?_, ?_⟩
  · intro ha hc
    simp only [h_getbyte, hloop, wait_loop, ha, ne_eq, not_false_eq_true, if_true, hc,
      Option.map_some']
  · intro ha hx
    rcases hx with hd | ht
    · simp only [h_getbyte, hloop, wait_loop, ha, ne_eq, not_true_eq_false, if_false, hd,
        Bool.not_false, if_true, Option.map_some']
    · by_cases hd : p.connected = true
      · simp only [h_getbyte, hloop, wait_loop, ha, ne_eq, not_true_eq_false, if_false, hd,
          Bool.not_true, Bool.false_eq_true, ht, if_true, Option.map_some']
      · have hd2 : p.connected = false := by simpa using hd
        simp only [h_getbyte, hloop, wait_loop, ha, ne_eq, not_true_eq_false, if_false, hd2,
          Bool.not_false, if_true, Option.map_some']
  · intro ha hc
    simp only [h_getbyte, hloop, wait_loop, ha, ne_eq, not_false_eq_true, if_true, hc,
      if_false, Option.map_some']
  · intro elapsed he hm
    rw [hm, timed_out_iff_elapsed now elapsed he]
    simp
  · intro polls
    exact h_getbyte_ne_sentinel now available0 polls c

/-- A wait that starts 296 ms before the millisecond counter wraps around, is still
idle at the wrap and has no byte 1096 ms after entry, ends in end-of-stream. -/
theorem h_getbyte_result_witness :
    (∀ q ∈ [({ available := 0, connected := true, millis := 4294967295 } : SerialPoll)],
        q.available = 0 ∧ q.connected = true ∧ timed_out 4294967000 q.millis = false) ∧
      (h_getbyte 4294967000 0
        ([{ available := 0, connected := true, millis := 4294967295 }] ++
          { available := 0, connected := true, millis := 800 } :: []) 65).map Prod.snd
        = some (-1) :=
  ⟨by decide,
    (h_getbyte_result 4294967000 0
      [{ available := 0, connected := true, millis := 4294967295 }]
      { available := 0, connected := true, millis := 800 } [] 65 (by decide)).2.1
      (by decide) (by decide)⟩

/-- C10, as stated, fails: after `h_set_frequency(h, 0)` on the state that
`arduino_play_svf` builds, the frequency is 0, not positive, and the divisor of the
delay expression `1000000L / u->frequency` is zero. -/
theorem h_set_frequency_zero :
    (h_set_frequency (arduino_play_svf_init 2 3 4 5 6) 0).1.frequency = 0 ∧
      ¬ 0 < (h_set_frequency (arduino_play_svf_init 2 3 4 5 6) 0).1.frequency ∧
      half_cycle_delay (h_set_frequency (arduino_play_svf_init 2 3 4 5 6) 0).1.frequency
        = none := by
  decide

/-- C10, amended. The frequency is positive after the initialisation in
`arduino_play_svf`; `h_set_frequency(h, v)` stores `v`, changes nothing else and
returns 0, so the frequency is positive after it whenever `v` is positive; and in every
such state the delay expression `1000000 / frequency` has a value. -/
theorem frequency_positive (u : arduino_xsvf_user_data) (v : Nat) (hv : 0 < v)
    (tms_pin tdi_pin tdo_pin tck_pin trst_pin : Int) :
    0 < (arduino_play_svf_init tms_pin tdi_pin tdo_pin tck_pin trst_pin).frequency ∧
    h_set_frequency u v = ({ u with frequency := v }, 0) ∧
    0 < (h_set_frequency u v).1.frequency ∧
    half_cycle_delay (h_set_frequency u v).1.frequency = some (1000000 / v) ∧
    half_cycle_delay
      (arduino_play_svf_init tms_pin tdi_pin tdo_pin tck_pin trst_pin).frequency = some 10 := by
  have hne : v ≠ 0 := Nat.pos_iff_ne_zero.mp hv
  refine ⟨?_, rfl, hv, ?_, ?_⟩
  · simp only [arduino_play_svf_init, Nat.ofNat_pos]
  · simp only [h_set_frequency, half_cycle_delay, hne, if_false]
  · simp only [arduino_play_svf_init, half_cycle_delay]
    decide

/-- Setting 250 kHz on the initial state gives a half-cycle delay of 4 microseconds. -/
theorem frequency_positive_witness :
    0 < 250000 ∧
      half_cycle_delay (h_set_frequency (arduino_play_svf_init 2 3 4 5 6) 250000).1.frequency
        = some (1000000 / 250000) :=
  ⟨by decide,
    (frequency_positive (arduino_play_svf_init 2 3 4 5 6) 250000 (by decide)
      2 3 4 5 6).2.2.2.1⟩

end Arduino

/-! ## Properties of `xsvftool.c` -/

namespace Desktop

/-- C7, as stated, fails: with a backend level of 1 and a don't-care `tdo`, and also
with `tdo = 1` matching the backend level 1, the call returns 0, not 1. -/
theorem h_pulse_tck_returns_status :
    (h_pulse_tck (udata_init 0) 1 1 0 (-1) 1).ret = 0 ∧
      (h_pulse_tck (udata_init 0) 1 1 0 1 0).ret = 0 ∧ (0 : Int) ≠ 1 := by
  decide

/-- C7, amended. With a backend whose `io_tdo` returns a level `s` in `{0, 1}`, for
every `tms`, `tdi` and `rmask` the call returns 0 when `tdo` is don't-care (`tdo < 0`)
and when `tdo` equals `s`; the returned 0 is the sampled value only when `s = 0`. -/
theorem h_pulse_tck_status (u : udata_s) (s : Int) (hs : s = 0 ∨ s = 1)
    (tms tdi tdo rmask : Int) :
    (tdo < 0 → (h_pulse_tck u s tms tdi tdo rmask).ret = 0) ∧
    (tdo = s → (h_pulse_tck u s tms tdi tdo rmask).ret = 0) ∧
    ((tdo < 0 ∨ tdo = s) → ((h_pulse_tck u s tms tdi tdo rmask).ret = s ↔ s = 0)) := by
  have h1 : tdo < 0 → (h_pulse_tck u s tms tdi tdo rmask).ret = 0 := by
    intro h
    have h2 : ¬ tdo ≥ 0 := not_le.mpr h
    simp only [h_pulse_tck, h2, false_and, if_false]
  have h2 : tdo = s → (h_pulse_tck u s tms tdi tdo rmask).ret = 0 := by
    intro h
    subst h
    have h3 : tdo ≥ 0 := by rcases hs with h | h <;> omega
    simp only [h_pulse_tck, h3, true_or, if_true, ne_eq, not_true_eq_false, and_false,
      if_false]
  refine ⟨h1, h2, ?_⟩
  intro h
  have h0 : (h_pulse_tck u s tms tdi tdo rmask).ret = 0 := h.elim h1 h2
  rw [h0]
  exact eq_comm

/-- Expecting 1 while the backend level is 1 returns the status 0. -/
theorem h_pulse_tck_status_witness :
    ((1 : Int) = 0 ∨ (1 : Int) = 1) ∧ (h_pulse_tck (udata_init 3) 1 0 1 1 1).ret = 0 :=
  ⟨by decide, (h_pulse_tck_status (udata_init 3) 1 (by decide) 0 1 1 1).2.1 rfl⟩

/-- Writing slot `i` and reading the first `i + 1` slots appends the written value to
the first `i` slots. -/
theorem take_succ_set (l : List Int) (i : Nat) (x : Int) (hi : i < l.length) :
    (l.set i x).take (i + 1) = l.take i ++ [x] := by
  rw [List.take_succ, List.set_take, List.getElem?_set_self hi,
    List.set_eq_of_length_le (by simp)]
  rfl

/-- Truncating before and after an append is the same as truncating after it. -/
theorem take_take_append (a b : List Int) (n : Nat) :
    (a.take n ++ b).take n = (a ++ b).take n := by
  rcases Nat.lt_or_ge n a.length with h | h
  · rw [List.take_append_of_le_length (by simp [List.length_take]; omega),
      List.take_append_of_le_length (by omega), List.take_take, Nat.min_self]
  · rw [List.take_of_length_le h]

/-- One pulse keeps the capture buffer well formed and appends the sampled value of a
capture request, unless the 256 slots are full. -/
theorem captured_pulse (u : udata_s) (hu : capture_inv u) (p : Pulse) :
    capture_inv (h_pulse_tck u p.io_tdo p.tms p.tdi p.tdo p.rmask).u ∧
    captured (h_pulse_tck u p.io_tdo p.tms p.tdi p.tdo p.rmask).u =
      (captured u ++ capture_requests [p]).take 256 := by
  obtain ⟨hlen, hi⟩ := hu
  have hcl : (captured u).length = u.retval_i := by
    simp only [captured, List.length_take]; omega
  by_cases hr : p.rmask ≠ 0
  · have hreq : capture_requests [p] = [p.io_tdo] := by
      simp [capture_requests, hr]
    by_cases hfull : u.retval_i < 256
    · simp only [h_pulse_tck, hr, hfull, and_self, if_true, not_false_eq_true, hreq, captured,
        capture_inv, List.length_set, hlen, or_true, ne_eq]
      refine ⟨⟨trivial, by omega⟩, ?_⟩
      have hle : (List.take u.retval_i u.retval ++ [p.io_tdo]).length ≤ 256 := by
        rw [List.length_append, List.length_take, List.length_singleton]
        omega
      rw [take_succ_set _ _ _ (by omega), List.take_of_length_le hle]
    · simp only [h_pulse_tck, hfull, and_false, if_false, hreq]
      refine ⟨⟨hlen, hi⟩, ?_⟩
      rw [List.take_append_of_le_length (by omega), List.take_of_length_le (by omega)]
  · have hreq : capture_requests [p] = [] := by
      simp [capture_requests, hr]
    simp only [h_pulse_tck, hr, false_and, if_false, hreq, List.append_nil]
    refine ⟨⟨hlen, hi⟩, ?_⟩
    rw [List.take_of_length_le (by omega)]

/-- The capture requests of a sequence are those of its first pulse followed by those
of the rest. -/
theorem capture_requests_cons (p : Pulse) (ps : List Pulse) :
    capture_requests (p :: ps) = capture_requests [p] ++ capture_requests ps := by
  by_cases hr : p.rmask ≠ 0 <;> simp [capture_requests, hr]

/-- A sequence of pulses appends the sampled values of its capture requests to the
captured sequence, up to the 256 slots of the buffer. -/
theorem captured_run (ps : List Pulse) :
    ∀ u : udata_s, capture_inv u →
      capture_inv (run_pulses u ps) ∧
      captured (run_pulses u ps) = (captured u ++ capture_requests ps).take 256 := by
  induction ps with
  | nil =>
    intro u hu
    refine ⟨hu, ?_⟩
    have hcl : (captured u).length ≤ 256 := by
      simp only [captured, List.length_take]
      have := hu.2
      omega
    simp only [run_pulses, List.foldl_nil, capture_requests, List.filter_nil, List.map_nil,
      List.append_nil]
    rw [List.take_of_length_le hcl]
  | cons p ps ih =>
    intro u hu
    obtain ⟨hinv, hcap⟩ := captured_pulse u hu p
    obtain ⟨hinv2, hcap2⟩ := ih _ hinv
    have hrun : run_pulses u (p :: ps) =
        run_pulses (h_pulse_tck u p.io_tdo p.tms p.tdi p.tdo p.rmask).u ps := rfl
    rw [hrun]
    refine ⟨hinv2, ?_⟩
    rw [hcap2, hcap, take_take_append, List.append_assoc, ← capture_requests_cons]

/-- The initial state has a well-formed capture buffer. -/
theorem capture_inv_init (verbose : Int) : capture_inv (udata_init verbose) :=
  ⟨List.length_replicate 256 0, Nat.zero_le 256⟩

/-- Nothing is captured in the initial state. -/
theorem captured_init (verbose : Int) : captured (udata_init verbose) = [] := rfl

/-- Repeating one capturing pulse `n` times requests `n` captures of its level. -/
theorem capture_requests_replicate (n : Nat) (p : Pulse) (hr : p.rmask ≠ 0) :
    capture_requests (List.replicate n p) = List.replicate n p.io_tdo := by
  induction n with
  | zero => rfl
  | succ n ih =>
    rw [List.replicate_succ, capture_requests_cons, ih]
    simp [capture_requests, hr, List.replicate_succ]

/-- C4, as stated, fails: after 257 pulses that all request capture, the captured
sequence has 256 entries, while 257 pulses had a non-zero `rmask`. -/
theorem capture_overflow :
    (captured (run_pulses (udata_init 0)
        (List.replicate 257 { tms := 0, tdi := 0, tdo := -1, rmask := 1, io_tdo := 1 }))).length
      = 256 ∧
    (capture_requests (List.replicate 257
        { tms := 0, tdi := 0, tdo := -1, rmask := 1, io_tdo := 1 })).length = 257 := by
  have hreq := capture_requests_replicate 257
    { tms := 0, tdi := 0, tdo := -1, rmask := 1, io_tdo := 1 } (by decide)
  constructor
  · rw [(captured_run _ _ (capture_inv_init 0)).2, captured_init, List.nil_append, hreq,
      List.length_take, List.length_replicate]
    rfl
  · rw [hreq, List.length_replicate]

/-- C4, amended. Starting from `retval_i = 0`, for every sequence of pulses the captured
sequence `retval[0 .. retval_i)` consists of the TDO values sampled on the pulses whose
`rmask` is non-zero, in pulse order, cut off after the first 256 of them; its length is
the number of such pulses capped at 256; in particular it is the whole sequence of
those values when there are at most 256 of them. The verification outcome of a pulse
plays no part. -/
theorem capture_bounded (verbose : Int) (ps : List Pulse) :
    captured (run_pulses (udata_init verbose) ps) = (capture_requests ps).take 256 ∧
    (run_pulses (udata_init verbose) ps).retval_i = min 256 (capture_requests ps).length ∧
    (captured (run_pulses (udata_init verbose) ps)).length
      = min 256 ((ps.filter (fun p => decide (p.rmask ≠ 0))).length) ∧
    ((ps.filter (fun p => decide (p.rmask ≠ 0))).length ≤ 256 →
      captured (run_pulses (udata_init verbose) ps)
        = (ps.filter (fun p => decide (p.rmask ≠ 0))).map (fun p => p.io_tdo)) := by
  obtain ⟨hinv, hcap⟩ := captured_run ps (udata_init verbose) (capture_inv_init verbose)
  rw [captured_init, List.nil_append] at hcap
  have hlen : (capture_requests ps).length
      = (ps.filter (fun p => decide (p.rmask ≠ 0))).length := by
    simp only [capture_requests, List.length_map]
  have hcl : (captured (run_pulses (udata_init verbose) ps)).length
      = (run_pulses (udata_init verbose) ps).retval_i := by
    simp only [captured, List.length_take]
    have h1 := hinv.1
    have h2 := hinv.2
    omega
  have hl2 : (captured (run_pulses (udata_init verbose) ps)).length
      = min 256 (capture_requests ps).length := by
    rw [hcap, List.length_take]
  refine ⟨hcap, ?_, ?_, ?_⟩
  · rw [← hcl, hl2]
  · rw [hl2, hlen]
  · intro hle
    rw [hcap, List.take_of_length_le (by omega)]
    rfl

/-- One tracking call on an in-range category returns, keeps the table length, raises
the entry of that category to the requested size when that is larger, and leaves
every other entry alone. -/
theorem h_realloc_entry (verbose : Int) (tbl : List Int) (size : Int) (which : Nat)
    (hw : which < tbl.length) :
    ∃ tbl1 log, h_realloc verbose tbl size which = some (tbl1, log) ∧
      tbl1.length = tbl.length ∧
      ∀ c : Nat, tbl1.getD c 0 = if c = which then max (tbl.getD c 0) size else tbl.getD c 0 := by
  by_cases hgt : size > tbl.getD which 0
  · refine ⟨tbl.set which size, if verbose ≥ 2 then [.realloc which size] else [], ?_,
      List.length_set _ _ _, ?_⟩
    · simp only [h_realloc, hw, if_true, hgt]
    · intro c
      by_cases hc : c = which
      · subst hc
        simp only [List.getD_eq_getElem?_getD, List.getElem?_set_self hw, Option.getD_some,
          if_true]
        simp only [List.getD_eq_getElem?_getD] at hgt
        omega
      · have hc2 : which ≠ c := fun h => hc h.symm
        simp only [List.getD_eq_getElem?_getD, List.getElem?_set_ne hc2, hc, if_false]
  · refine ⟨tbl, if verbose ≥ 2 then [.realloc which size] else [], ?_, rfl, ?_⟩
    · simp only [h_realloc, hw, if_true, hgt, if_false]
    · intro c
      by_cases hc : c = which
      · subst hc
        simp only [if_true]
        omega
      · simp only [hc, if_false]

/-- The sizes requested for `c` by a session, by its first call and the rest. -/
theorem requested_cons (r : Request) (rs : List Request) (c : Nat) :
    requested (r :: rs) c = if r.which = c then r.size :: requested rs c else requested rs c := by
  by_cases h : r.which = c <;> simp [requested, h]

/-- A session of tracking calls on in-range categories returns a table of the same
length whose entry for each category is the running maximum of the old entry and the
sizes requested for that category. -/
theorem run_session_entries (verbose : Int) (rs : List Request) :
    ∀ tbl : List Int, (∀ r ∈ rs, r.which < tbl.length) →
      ∃ tbl1, run_session verbose tbl rs = some tbl1 ∧ tbl1.length = tbl.length ∧
        ∀ c : Nat, tbl1.getD c 0 = (requested rs c).foldl max (tbl.getD c 0) := by
  induction rs with
  | nil =>
    intro tbl _
    exact ⟨tbl, rfl, rfl, fun c => rfl⟩
  | cons r rs ih =>
    intro tbl hin
    obtain ⟨t1, log, hcall, hlen1, hent1⟩ :=
      h_realloc_entry verbose tbl r.size r.which (hin r (List.mem_cons_self r rs))
    obtain ⟨t2, hrun, hlen2, hent2⟩ :=
      ih t1 (fun q hq => hlen1 ▸ hin q (List.mem_cons_of_mem r hq))
    refine ⟨t2, ?_, hlen2.trans hlen1, ?_⟩
    · simp only [run_session, hcall, hrun]
    · intro c
      rw [hent2 c, hent1 c, requested_cons]
      by_cases hc : c = r.which
      · subst hc
        simp only [if_true, List.foldl_cons]
      · have hc2 : ¬ r.which = c := fun h => hc h.symm
        simp only [hc, hc2, if_false]

/-- A running maximum is at least its starting value. -/
theorem foldl_max_ge_init (l : List Int) : ∀ a : Int, a ≤ l.foldl max a := by
  induction l with
  | nil => intro a; exact le_refl a
  | cons x xs ih => intro a; exact le_trans (le_max_left a x) (ih (max a x))

/-- A running maximum is at least every element it ran over. -/
theorem foldl_max_ge_mem (l : List Int) : ∀ a : Int, ∀ x ∈ l, x ≤ l.foldl max a := by
  induction l with
  | nil => intro a x hx; cases hx
  | cons y ys ih =>
    intro a x hx
    rcases List.mem_cons.mp hx with h | h
    · subst h
      exact le_trans (le_max_right a x) (foldl_max_ge_init ys (max a x))
    · exact ih (max a y) x h

/-- A running maximum is its starting value or one of the elements it ran over. -/
theorem foldl_max_attained (l : List Int) : ∀ a : Int, l.foldl max a = a ∨ l.foldl max a ∈ l := by
  induction l with
  | nil => intro a; exact Or.inl rfl
  | cons y ys ih =>
    intro a
    rcases ih (max a y) with h | h
    · rcases max_choice a y with hm | hm
      · left
        rw [List.foldl_cons, h, hm]
      · right
        rw [List.foldl_cons, h, hm]
        exact List.mem_cons_self y ys
    · right
      exact List.mem_cons_of_mem y h

/-- A size was requested for `c` exactly when some call of the session asked category
`c` for that size. -/
theorem mem_requested (rs : List Request) (c : Nat) (x : Int) :
    x ∈ requested rs c ↔ ∃ r ∈ rs, r.which = c ∧ r.size = x := by
  simp only [requested, List.mem_map, List.mem_filter, decide_eq_true_eq, and_assoc]

/-- Reordering the calls of a session reorders the sizes requested for each category. -/
theorem requested_perm (rs rs2 : List Request) (h : rs2.Perm rs) (c : Nat) :
    (requested rs2 c).Perm (requested rs c) :=
  (h.filter _).map _

/-- A running maximum does not depend on the order of the elements. -/
theorem foldl_max_perm (l l2 : List Int) (h : l2.Perm l) (a : Int) :
    l2.foldl max a = l.foldl max a :=
  h.foldl_eq' (fun x _ y _ z => by
    rw [max_assoc, max_comm x y, ← max_assoc]) a

/-- Every entry of the zero-initialised table reads 0. -/
theorem getD_replicate_zero (n c : Nat) : (List.replicate n (0 : Int)).getD c 0 = 0 := by
  simp only [List.getD_eq_getElem?_getD, List.getElem?_replicate]
  by_cases h : c < n <;> simp [h]

/-- C3. Tracking-mode profile: starting from the all-zero table, every session of
calls with in-range categories and non-negative sizes returns a table in which, for
every category `c`, the entry is an upper bound of the sizes requested for `c`, is one
of those sizes when `c` was requested, and is 0 when `c` was never requested (that is,
it is the maximum requested size); and every permutation of the calls yields the same
table. -/
theorem tracking_profile_is_maximum (verbose : Int) (NUM : Nat) (rs : List Request)
    (hr : ∀ r ∈ rs, r.which < NUM ∧ 0 ≤ r.size) :
    ∃ tbl, run_session verbose (realloc_maxsize_init NUM) rs = some tbl ∧
      tbl.length = NUM ∧
      (∀ c : Nat, c < NUM →
        (∀ r ∈ rs, r.which = c → r.size ≤ tbl.getD c 0) ∧
        ((∃ r ∈ rs, r.which = c) → ∃ r ∈ rs, r.which = c ∧ r.size = tbl.getD c 0) ∧
        ((¬ ∃ r ∈ rs, r.which = c) → tbl.getD c 0 = 0)) ∧
      (∀ rs2 : List Request, rs2.Perm rs →
        run_session verbose (realloc_maxsize_init NUM) rs2 = some tbl) := by
  have hlen0 : (realloc_maxsize_init NUM).length = NUM := List.length_replicate NUM 0
  obtain ⟨tbl, hrun, hlen, hent⟩ := run_session_entries verbose rs (realloc_maxsize_init NUM)
    (fun r h => hlen0.symm ▸ (hr r h).1)
  have hval : ∀ c : Nat, tbl.getD c 0 = (requested rs c).foldl max 0 := by
    intro c
    rw [hent c, realloc_maxsize_init, getD_replicate_zero]
  refine ⟨tbl, hrun, hlen.trans hlen0, ?_, ?_⟩
  · intro c _
    refine ⟨?_, ?_, ?_⟩
    · intro r hmem hc
      rw [hval c]
      exact foldl_max_ge_mem _ 0 _ ((mem_requested rs c r.size).mpr ⟨r, hmem, hc, rfl⟩)
    · rintro ⟨r, hmem, hc⟩
      rcases foldl_max_attained (requested rs c) 0 with h0 | hin
      · refine ⟨r, hmem, hc, ?_⟩
        have hle : r.size ≤ (requested rs c).foldl max 0 :=
          foldl_max_ge_mem _ 0 _ ((mem_requested rs c r.size).mpr ⟨r, hmem, hc, rfl⟩)
        have hge := (hr r hmem).2
        rw [hval c, h0]
        rw [h0] at hle
        omega
      · obtain ⟨q, hq, hqc, hqs⟩ := (mem_requested rs c _).mp hin
        exact ⟨q, hq, hqc, by rw [hval c, hqs]⟩
    · intro hnone
      rcases foldl_max_attained (requested rs c) 0 with h0 | hin
      · rw [hval c, h0]
      · obtain ⟨q, hq, hqc, _⟩ := (mem_requested rs c _).mp hin
        exact absurd ⟨q, hq, hqc⟩ hnone
  · intro rs2 hperm
    obtain ⟨tbl2, hrun2, hlen2, hent2⟩ :=
      run_session_entries verbose rs2 (realloc_maxsize_init NUM)
        (fun r h => hlen0.symm ▸ (hr r (hperm.mem_iff.mp h)).1)
    have heq : tbl2 = tbl := by
      apply List.ext_getElem? 
      intro c
      have h2 := hent2 c
      have h1 := hent c
      rw [foldl_max_perm _ _ (requested_perm rs rs2 hperm c), ← h1] at h2
      simp only [List.getD_eq_getElem?_getD] at h2
      by_cases hc : c < tbl.length
      · have hc2 : c < tbl2.length := by rw [hlen2, ← hlen]; exact hc
        rw [List.getElem?_eq_getElem hc, List.getElem?_eq_getElem hc2] at h2 ⊢
        simpa using h2
      · have hc2 : ¬ c < tbl2.length := by rw [hlen2, ← hlen]; exact hc
        rw [List.getElem?_eq_none (by omega), List.getElem?_eq_none (by omega)]
    rw [hrun2, heq]

/-- A session of four requests over 16 categories returns a table of 16 entries. -/
theorem tracking_profile_is_maximum_witness :
    (∀ r ∈ [({ which := 5, size := 120 } : Request), { which := 6, size := 2 },
        { which := 5, size := 200 }, { which := 5, size := 64 }], r.which < 16 ∧ 0 ≤ r.size) ∧
      ∃ tbl, run_session 0 (realloc_maxsize_init 16)
        [{ which := 5, size := 120 }, { which := 6, size := 2 }, { which := 5, size := 200 },
          { which := 5, size := 64 }] = some tbl ∧ tbl.length = 16 :=
  ⟨by decide,
    (tracking_profile_is_maximum 0 16
      [{ which := 5, size := 120 }, { which := 6, size := 2 }, { which := 5, size := 200 },
        { which := 5, size := 64 }] (by decide)).imp (fun _ h => ⟨h.1, h.2.1⟩)⟩

/-- Entry `c` of the emitted `sizelist`. -/
theorem emitted_sizelist_getD (tbl : List Int) (c : Nat) :
    (emitted_sizelist tbl).getD c 0 = if tbl.getD c 0 > 0 then tbl.getD c 0 else 0 := by
  simp only [emitted_sizelist, List.getD_eq_getElem?_getD, List.getElem?_map]
  cases tbl[c]? <;> simp

/-- Entry `c` of the emitted `buflist`. -/
theorem emitted_buflist_getD (tbl : List Int) (c : Nat) :
    (emitted_buflist tbl).getD c .null = if tbl.getD c 0 > 0 then .buf c else .null := by
  simp only [emitted_buflist, List.getD_eq_getElem?_getD, List.getElem?_map,
    List.getElem?_enum]
  cases tbl[c]? <;> simp

/-- C5. Sufficiency of the generated table: for every session of tracking calls with
categories below `LIBXSVF_MEM_NUM`, the allocator that `main` prints from the resulting
`realloc_maxsize` table passes its capacity check `which < NUM && size <= sizelist[which]`
for every request of the session, and returns the buffer of the category, not the
null pointer, for every request of the session whose size is positive. -/
theorem emitted_table_sufficient (verbose : Int) (NUM : Nat) (rs : List Request)
    (hr : ∀ r ∈ rs, r.which < NUM) :
    ∃ tbl, run_session verbose (realloc_maxsize_init NUM) rs = some tbl ∧
      ∀ r ∈ rs,
        (r.which < NUM ∧ r.size ≤ (emitted_sizelist tbl).getD r.which 0) ∧
        (0 < r.size → emitted_realloc NUM tbl r.size r.which = .buf r.which ∧
          emitted_realloc NUM tbl r.size r.which ≠ .null) := by
  have hlen0 : (realloc_maxsize_init NUM).length = NUM := List.length_replicate NUM 0
  obtain ⟨tbl, hrun, _, hent⟩ := run_session_entries verbose rs (realloc_maxsize_init NUM)
    (fun r h => hlen0.symm ▸ hr r h)
  refine ⟨tbl, hrun, ?_⟩
  intro r hmem
  have hle : r.size ≤ tbl.getD r.which 0 := by
    rw [hent r.which]
    exact foldl_max_ge_mem _ _ _ ((mem_requested rs r.which r.size).mpr ⟨r, hmem, rfl, rfl⟩)
  have hnn : 0 ≤ tbl.getD r.which 0 := by
    rw [hent r.which, realloc_maxsize_init, getD_replicate_zero]
    exact foldl_max_ge_init _ 0
  have hcap : r.size ≤ (emitted_sizelist tbl).getD r.which 0 := by
    rw [emitted_sizelist_getD]
    by_cases hpos : tbl.getD r.which 0 > 0
    · rw [if_pos hpos]; exact hle
    · rw [if_neg hpos]; omega
  refine ⟨⟨hr r hmem, hcap⟩, ?_⟩
  intro hpos
  have hpos2 : tbl.getD r.which 0 > 0 := lt_of_lt_of_le hpos hle
  have hres : emitted_realloc NUM tbl r.size r.which = .buf r.which := by
    unfold emitted_realloc
    rw [if_pos ⟨hr r hmem, hcap⟩, emitted_buflist_getD, if_pos hpos2]
  exact ⟨hres, by rw [hres]; exact fun h => GenPtr.noConfusion h⟩

/-- After a session that asked category 5 for 120 and 200 bytes, the emitted allocator
grants the request of 120 bytes from the buffer of category 5. -/
theorem emitted_table_sufficient_witness :
    (∀ r ∈ [({ which := 5, size := 120 } : Request), { which := 0, size := -3 },
        { which := 5, size := 200 }], r.which < 16) ∧
      ∃ tbl, run_session 2 (realloc_maxsize_init 16)
        [{ which := 5, size := 120 }, { which := 0, size := -3 }, { which := 5, size := 200 }]
          = some tbl ∧
        emitted_realloc 16 tbl 120 5 = .buf 5 :=
  ⟨by decide,
    (emitted_table_sufficient 2 16
      [{ which := 5, size := 120 }, { which := 0, size := -3 }, { which := 5, size := 200 }]
      (by decide)).imp
      (fun _ h => ⟨h.1, ((h.2 { which := 5, size := 120 } (by decide)).2 (by decide)).1⟩)⟩

end Desktop

end Libxsvf
